import Mathlib

/-!
# Verification of the transport-catalogue route-planning core

Shallow embedding of the route-planning core of the transport-catalogue
repository: the catalogue view consumed by the router
(`src/unnamed/part_001`, `src/transport-catalogue/transport_catalogue.h`),
the graph builder `TransportRouter::TransportRouter`
(`src/transport-catalogue/transport_router.cpp`), and the query facade
`TransportRouter::FindRoute` / `TransportRouter::BuildRoute`.

Modelling conventions:
* C++ `double` weights are modelled as `ℚ` (exact arithmetic; the claims under
  scrutiny are formula-level, not rounding-level).
* `size_t` distances are `Nat`.
* `std::map` / `std::unordered_map` contents are modelled as association
  lists whose keys are unique; `std::map` iteration order is recovered by
  sorting with a byte-wise lexicographic comparator on names, mirroring
  `std::string_view::operator<`.
* Stops are identified by their names: the catalogue registers at most one
  stop per name (`stopname_to_stop_` is keyed by name), distances and route
  entries reference registered stops, so `Stop*` identity coincides with
  name identity.
* The generic graph (`graph.h`) and shortest-path engine (`router.h`) are not
  part of the provided sources; they are modelled from the spec below and
  marked as such.
-/

/-- Byte-wise (code-point-wise) lexicographic comparison of character lists,
modelling `std::string_view::operator<=` as used for `std::map` key ordering.
(`String.decidableLE` itself does not reduce in the kernel, hence this
executable mirror.) -/
def charLe : List Char → List Char → Bool
  | [], _ => true
  | _ :: _, [] => false
  | a :: as, b :: bs =>
    if a.toNat < b.toNat then true
    else if b.toNat < a.toNat then false
    else charLe as bs

/-- Lexicographic `≤` on strings via their character lists. -/
def strLe (a b : String) : Bool := charLe a.data b.data

theorem charLe_total : ∀ as bs : List Char, charLe as bs = true ∨ charLe bs as = true := by
  intro as
  induction as with
  | nil => intro bs; left; rfl
  | cons a as ih =>
    intro bs
    cases bs with
    | nil => right; rfl
    | cons b bs =>
      by_cases hab : a.toNat < b.toNat
      · left; simp [charLe, hab]
      · by_cases hba : b.toNat < a.toNat
        · right; simp [charLe, hab, hba]
        · rcases ih bs with h | h
          · left; simp [charLe, hab, hba, h]
          · right; simp [charLe, hab, hba, h]

theorem charLe_trans : ∀ as bs cs : List Char,
    charLe as bs = true → charLe bs cs = true → charLe as cs = true := by
  intro as
  induction as with
  | nil => intro bs cs _ _; rfl
  | cons a as ih =>
    intro bs cs h1 h2
    cases bs with
    | nil => simp [charLe] at h1
    | cons b bs =>
      cases cs with
      | nil => simp [charLe] at h2
      | cons c cs =>
        by_cases hab : a.toNat < b.toNat
        · by_cases hbc : b.toNat < c.toNat
          · have hac : a.toNat < c.toNat := Nat.lt_trans hab hbc
            simp [charLe, hac]
          · by_cases hcb : c.toNat < b.toNat
            · simp [charLe, hab, hbc, hcb] at h2
            · have hbc2 : b.toNat = c.toNat := Nat.le_antisymm (Nat.le_of_not_lt hcb) (Nat.le_of_not_lt hbc)
              have hac : a.toNat < c.toNat := hbc2 ▸ hab
              simp [charLe, hac]
        · by_cases hba : b.toNat < a.toNat
          · simp [charLe, hab, hba] at h1
          · have hab2 : a.toNat = b.toNat := Nat.le_antisymm (Nat.le_of_not_lt hba) (Nat.le_of_not_lt hab)
            simp only [charLe, hab, hba, if_false, if_neg] at h1
            by_cases hbc : b.toNat < c.toNat
            · have hac : a.toNat < c.toNat := hab2 ▸ hbc
              simp [charLe, hac]
            · by_cases hcb : c.toNat < b.toNat
              · simp [charLe, hbc, hcb] at h2
              · have hac : ¬ a.toNat < c.toNat := by omega
                have hca : ¬ c.toNat < a.toNat := by omega
                simp only [charLe, hbc, hcb, if_false, if_neg] at h2
                simp [charLe, hac, hca, ih bs cs h1 h2]

instance : IsTotal String (fun a b => strLe a b = true) :=
  ⟨fun a b => charLe_total a.data b.data⟩

instance : IsTrans String (fun a b => strLe a b = true) :=
  ⟨fun a b c => charLe_trans a.data b.data c.data⟩

/-- One bus of the catalogue (`Bus` in `domain.h`): its name (`name_`), the
ordered stop references of its route (`route_`, modelled by the names of the
registered stops the pointers denote), and the roundtrip flag
(`is_roundtrip_`). -/
structure BusR where
  name : String
  route : List String
  isRoundtrip : Bool
deriving DecidableEq

/-- The catalogue state consumed by the router (`TransportCatalogue`):
`stopNames` are the keys of `stopname_to_stop_`, `distances` the contents of
`stop_to_near_stop_` keyed by stop-name pairs, `buses` the values of
`bus_routes_`.  Stop coordinates are omitted: the routing core never reads
them (`GetDistance` falls back to the reverse direction and then to `0`,
never to geography). -/
structure Catalogue where
  stopNames : List String
  distances : List ((String × String) × Nat)
  buses : List BusR
deriving DecidableEq

/-- `TransportCatalogue::GetDistance` (src/unnamed/part_001, lines 111-119):
directed lookup, then reverse-direction fallback, then `0`. -/
def Catalogue.getDistance (cat : Catalogue) (a b : String) : Nat :=
  match List.lookup (a, b) cat.distances with
  | some d => d
  | none =>
    match List.lookup (b, a) cat.distances with
    | some d => d
    | none => 0

/-- `TransportCatalogue::FindStop` success (src/unnamed/part_001):
whether a stop with this name is registered. -/
def Catalogue.findStop (cat : Catalogue) (s : String) : Bool :=
  cat.stopNames.contains s

/-- `TransportCatalogue::AddStop` (src/unnamed/part_001): registers a stop
under its name. -/
def Catalogue.addStop (cat : Catalogue) (name : String) : Catalogue :=
  { cat with stopNames := cat.stopNames ++ [name] }

/-- `TransportCatalogue::AddDistance` (src/unnamed/part_001): records a
directed distance if both endpoints are registered; assignment into the map
is modelled by prepending (newest entry wins on lookup). -/
def Catalogue.addDistance (cat : Catalogue) (f t : String) (d : Nat) : Catalogue :=
  if cat.findStop f && cat.findStop t then
    { cat with distances := ((f, t), d) :: cat.distances }
  else cat

/-- `TransportCatalogue::AddRoute` (src/unnamed/part_001, lines 18-36): the
stored route keeps exactly the stop names that resolve in
`stopname_to_stop_`; unknown names are silently skipped. -/
def Catalogue.addRoute (cat : Catalogue) (busName : String)
    (stopnames : List String) (rt : Bool) : Catalogue :=
  { cat with
    buses := cat.buses ++
      [⟨busName, stopnames.filter (fun s => cat.stopNames.contains s), rt⟩] }

/-- `TransportCatalogue::GetAllSortedStops` (src/unnamed/part_001, lines
152-158): the registered stop names in `std::map` (lexicographic) order. -/
def Catalogue.sortedStops (cat : Catalogue) : List String :=
  List.insertionSort (fun a b => strLe a b = true) cat.stopNames.dedup

/-- `TransportCatalogue::GetAllSortedBuses` (src/unnamed/part_001, lines
144-150): the buses in name order. -/
def Catalogue.sortedBuses (cat : Catalogue) : List BusR :=
  List.insertionSort (fun x y => strLe x.name y.name = true) cat.buses

/-- Number of registered stops (each contributes two graph vertices). -/
def Catalogue.numStops (cat : Catalogue) : Nat :=
  cat.sortedStops.length

/-- The `stop_ids_` map built in stage 1 of `TransportRouter::TransportRouter`
(lines 25-39): each stop of the sorted iteration receives the next even
vertex id.  `stopVertex` is the checked lookup (`stop_ids_.find`). -/
def Catalogue.stopVertex (cat : Catalogue) (s : String) : Option Nat :=
  if s ∈ cat.sortedStops then some (2 * List.indexOf s cat.sortedStops) else none

/-- The unchecked lookup `stop_ids_.at` used while building ride edges; for
registered names it agrees with `stopVertex`. -/
def Catalogue.stopArrAt (cat : Catalogue) (s : String) : Nat :=
  2 * List.indexOf s cat.sortedStops

/-- `TransportRouter::MAX_ROUTE_SPANS` (transport_router.h, line 71). -/
def MAX_ROUTE_SPANS : Nat := 90

/-- `k_KmhToMpm` (transport_router.cpp, line 6): km/h to metres-per-minute. -/
def kKmhToMpm : ℚ := 1000 / 60

/-- Ride time of `dist` metres at `vel` km/h, in minutes
(transport_router.cpp, line 68). -/
def travelTime (vel : ℚ) (dist : Nat) : ℚ :=
  (dist : ℚ) / (vel * kKmhToMpm)

/-- A directed weighted edge of the route graph. -/
structure Edge where
  fromV : Nat
  toV : Nat
  weight : ℚ
deriving DecidableEq

/-- `TransportRouter::RouteData` (transport_router.h): a trip segment, either
waiting at a stop or riding a bus over some number of spans.  The C++ struct
uses a `type` string tag; the tagged variant is the same data. -/
inductive RouteData where
  | wait (stopName : String) (time : ℚ)
  | bus (busName : String) (spanCount : Nat) (time : ℚ)
deriving DecidableEq

/-- The duration of one segment (`RouteData::time`). -/
def RouteData.time : RouteData → ℚ
  | .wait _ t => t
  | .bus _ _ t => t

/-- Sum of segment durations of a built route. -/
def routeTotalTime (r : List RouteData) : ℚ :=
  (r.map RouteData.time).sum

/-- The ordered pairs `(i, j)` visited by the ride-edge double loop
(transport_router.cpp, lines 57-58): `i < j < n` and `j - i ≤
MAX_ROUTE_SPANS`. -/
def spanPairs (n : Nat) : List (Nat × Nat) :=
  (List.range n).flatMap (fun i =>
    (List.range' (i + 1) (min (i + MAX_ROUTE_SPANS) (n - 1) - i)).map (fun j => (i, j)))

/-- Forward cumulative distance over the span `i..j` of a route
(transport_router.cpp, lines 63-66): the sum of the directed hop distances,
each obtained through `GetDistance`. -/
def cumDistF (cat : Catalogue) (stops : List String) (i j : Nat) : Nat :=
  ((List.range' (i + 1) (j - i)).map
    (fun k => cat.getDistance (stops.getD (k - 1) "") (stops.getD k ""))).sum

/-- Reverse cumulative distance over the span `i..j`
(transport_router.cpp, lines 81-84): hops summed independently in the
reverse direction (`k` runs from `j` down to `i + 1`). -/
def cumDistR (cat : Catalogue) (stops : List String) (i j : Nat) : Nat :=
  (((List.range' (i + 1) (j - i)).reverse).map
    (fun k => cat.getDistance (stops.getD k "") (stops.getD (k - 1) ""))).sum

/-- Stage 1 of the builder (transport_router.cpp, lines 25-39): for each stop
of the sorted iteration, one wait edge `2*i → 2*i + 1` of weight
`bus_wait_time`, pushed in lockstep with its `RouteData::Wait` entry. -/
def waitSteps (cat : Catalogue) (waitTime : ℚ) : List (Edge × RouteData) :=
  (List.range cat.numStops).map (fun i =>
    (⟨2 * i, 2 * i + 1, waitTime⟩, RouteData.wait (cat.sortedStops.getD i "") waitTime))

/-- Stage 2 of the builder for one bus (transport_router.cpp, lines 57-101):
for each loop pair `(i, j)`, the forward ride edge (departure of stop `i` to
arrival of stop `j`) and, when the route is not a roundtrip, the reverse
ride edge, each pushed in lockstep with its `RouteData::Bus` entry. -/
def rideSteps (cat : Catalogue) (vel : ℚ) (b : BusR) : List (Edge × RouteData) :=
  (spanPairs b.route.length).flatMap (fun ij =>
    let i := ij.1
    let j := ij.2
    let tF := travelTime vel (cumDistF cat b.route i j)
    let fwd : Edge × RouteData :=
      (⟨cat.stopArrAt (b.route.getD i "") + 1, cat.stopArrAt (b.route.getD j ""), tF⟩,
       RouteData.bus b.name (j - i) tF)
    if b.isRoundtrip then [fwd]
    else
      let tR := travelTime vel (cumDistR cat b.route i j)
      [fwd,
       (⟨cat.stopArrAt (b.route.getD j "") + 1, cat.stopArrAt (b.route.getD i ""), tR⟩,
        RouteData.bus b.name (j - i) tR)])

/-- All edges of `TransportRouter::TransportRouter` in push order: wait edges
for the sorted stops, then ride edges bus by bus (sorted), pair by pair,
forward before reverse.  Each element pairs the graph edge with the
`edge_info_` entry pushed alongside it. -/
def buildSteps (cat : Catalogue) (waitTime vel : ℚ) : List (Edge × RouteData) :=
  waitSteps cat waitTime ++ cat.sortedBuses.flatMap (rideSteps cat vel)

/-- Modelled from the spec: `graph::DirectedWeightedGraph` (`graph.h` is not
under src/).  Spec, section 3: the graph owns all vertices and edges; edge
ids are assigned in the exact order edges are added, so the edge store is a
list indexed by edge id. -/
structure DWGraph where
  vertexCount : Nat
  edges : List Edge

/-- The graph built by the constructor: `all_stops.size() * 2` vertices and
the edges of `buildSteps` in push order. -/
def builtGraph (cat : Catalogue) (waitTime vel : ℚ) : DWGraph :=
  ⟨2 * cat.numStops, (buildSteps cat waitTime vel).map Prod.fst⟩

/-- The `edge_info_` table: the segment description pushed for each edge, in
the same order. -/
def edgeInfoTable (cat : Catalogue) (waitTime vel : ℚ) : List RouteData :=
  (buildSteps cat waitTime vel).map Prod.snd

example : spanPairs 3 = [(0, 1), (0, 2), (1, 2)] := by decide
example : spanPairs 1 = [] := by decide
example : spanPairs 0 = [] := by decide

/-- Modelled from the spec: the state of the shortest-path engine
(`router.h` is not under src/).  Spec, section 4.2: single-source relaxation
over non-negative weights; each settled vertex carries the best known total
weight together with the ordered edge ids realizing it. -/
def RelaxState := List (Option (ℚ × List Nat))

/-- Modelled from the spec: one relaxation of edge `i` — if its tail has a
tentative path and the head has none or a strictly worse one, the head
receives the extended path. -/
def relaxEdge (g : DWGraph) (d : RelaxState) (i : Nat) : RelaxState :=
  match g.edges[i]? with
  | none => d
  | some e =>
    match d.getD e.fromV none with
    | none => d
    | some (w, p) =>
      match d.getD e.toV none with
      | none => d.set e.toV (some (w + e.weight, p ++ [i]))
      | some (w2, _) =>
        if w + e.weight < w2 then d.set e.toV (some (w + e.weight, p ++ [i])) else d

/-- Modelled from the spec: relax every edge once, in edge-id order. -/
def relaxRound (g : DWGraph) (d : RelaxState) : RelaxState :=
  (List.range g.edges.length).foldl (relaxEdge g) d

/-- Modelled from the spec: the initial state — the source known at weight 0
by the empty path, all other vertices unreached. -/
def initState (g : DWGraph) (src : Nat) : RelaxState :=
  (List.range g.vertexCount).map (fun v => if v = src then some (0, []) else none)

/-- Modelled from the spec: run the relaxation to fixpoint (as many rounds as
there are vertices suffice for non-negative weights). -/
def relaxAll (g : DWGraph) (src : Nat) : RelaxState :=
  (relaxRound g)^[g.vertexCount] (initState g src)

/-- Modelled from the spec: `graph::Router<double>::BuildRoute` — the total
weight and ordered edge ids of a best path, `none` when the target is
unreachable; spec, section 4.2: source = target yields weight 0 and the
empty edge sequence. -/
def routerBuildRoute (g : DWGraph) (src tgt : Nat) : Option (ℚ × List Nat) :=
  if src = tgt then some (0, [])
  else (relaxAll g src).getD tgt none

/-- `TransportRouter::FindRoute` (transport_router.cpp, lines 115-126):
resolve both names through `stop_ids_`, then query the engine from arrival
vertex to arrival vertex; `none` as soon as either name is unknown. -/
def findRoute (cat : Catalogue) (waitTime vel : ℚ) (f t : String) :
    Option (ℚ × List Nat) :=
  match cat.stopVertex f, cat.stopVertex t with
  | some u, some v => routerBuildRoute (builtGraph cat waitTime vel) u v
  | _, _ => none

/-- `TransportRouter::BuildRoute` (transport_router.cpp, lines 134-146):
`FindRoute`, then each edge id mapped through `edge_info_`. -/
def buildRouteQuery (cat : Catalogue) (waitTime vel : ℚ) (f t : String) :
    Option (List RouteData) :=
  match findRoute cat waitTime vel f t with
  | none => none
  | some (_, ids) =>
      some (ids.map (fun id => (edgeInfoTable cat waitTime vel).getD id (RouteData.wait "" 0)))

/-- A walk in the graph: a list of edge ids whose edges chain from `u`
to `v`. -/
inductive IsWalk (g : DWGraph) : Nat → Nat → List Nat → Prop where
  | nil (v : Nat) : IsWalk g v v []
  | cons (u v i : Nat) (p : List Nat) (e : Edge) :
      g.edges[i]? = some e → e.fromV = u → IsWalk g e.toV v p →
      IsWalk g u v (i :: p)

theorem IsWalk.append_edge {g : DWGraph} {u m : Nat} {p : List Nat}
    (hw : IsWalk g u m p) :
    ∀ {i : Nat} {e : Edge}, g.edges[i]? = some e → e.fromV = m →
      IsWalk g u e.toV (p ++ [i]) := by
  induction hw with
  | nil v =>
    intro i e he hf
    exact IsWalk.cons v e.toV i [] e he hf (IsWalk.nil e.toV)
  | cons a b j q e2 he2 hf2 hsub ih =>
    intro i e he hf
    exact IsWalk.cons a e.toV j (q ++ [i]) e2 he2 hf2 (ih he hf)

/-- The relaxation invariant: every tentative entry holds a genuine walk from
the source to its vertex. -/
def StateOk (g : DWGraph) (src : Nat) (d : RelaxState) : Prop :=
  ∀ v w p, List.getD d v none = some (w, p) → IsWalk g src v p

theorem initState_getD (g : DWGraph) (src v : Nat) :
    List.getD (initState g src) v none =
      if v < g.vertexCount ∧ v = src then some (0, []) else none := by
  unfold initState
  rw [List.getD_eq_getElem?_getD, List.getElem?_map]
  by_cases hv : v < g.vertexCount
  · rw [List.getElem?_range hv]
    by_cases hs : v = src
    · subst hs; simp [hv]
    · simp [hv, hs]
  · rw [List.getElem?_eq_none (by simpa using Nat.le_of_not_lt hv)]
    simp [hv]

theorem stateOk_init (g : DWGraph) (src : Nat) : StateOk g src (initState g src) := by
  intro v w p h
  rw [initState_getD] at h
  by_cases hc : v < g.vertexCount ∧ v = src
  · rw [if_pos hc] at h
    simp only [Option.some.injEq, Prod.mk.injEq] at h
    obtain ⟨-, rfl⟩ := h
    obtain ⟨-, rfl⟩ := hc
    exact IsWalk.nil v
  · rw [if_neg hc] at h
    cases h

theorem stateOk_set (g : DWGraph) (src : Nat) (d : RelaxState) (k : Nat)
    (w : ℚ) (p : List Nat) (hok : StateOk g src d) (hwalk : IsWalk g src k p) :
    StateOk g src (d.set k (some (w, p))) := by
  intro v w2 p2 h
  rw [List.getD_eq_getElem?_getD, List.getElem?_set] at h
  by_cases hv : k = v
  · rw [if_pos hv] at h
    by_cases hk : k < d.length
    · rw [if_pos hk] at h
      simp only [Option.getD_some, Option.some.injEq, Prod.mk.injEq] at h
      obtain ⟨-, rfl⟩ := h
      exact hv ▸ hwalk
    · rw [if_neg hk] at h
      simp at h
  · rw [if_neg hv] at h
    exact hok v w2 p2 (by rw [List.getD_eq_getElem?_getD]; exact h)

theorem stateOk_relaxEdge (g : DWGraph) (src : Nat) (d : RelaxState) (i : Nat)
    (hok : StateOk g src d) : StateOk g src (relaxEdge g d i) := by
  unfold relaxEdge
  split
  · exact hok
  next e he =>
    split
    · exact hok
    next w p hf =>
      have hwalk : IsWalk g src e.toV (p ++ [i]) :=
        IsWalk.append_edge (hok e.fromV w p hf) he rfl
      split
      · exact stateOk_set g src d e.toV (w + e.weight) (p ++ [i]) hok hwalk
      next w2 p2 ht =>
        split
        · exact stateOk_set g src d e.toV (w + e.weight) (p ++ [i]) hok hwalk
        · exact hok

theorem stateOk_foldl (g : DWGraph) (src : Nat) (l : List Nat) :
    ∀ d : RelaxState, StateOk g src d → StateOk g src (l.foldl (relaxEdge g) d) := by
  induction l with
  | nil => intro d h; exact h
  | cons i l ih =>
    intro d h
    exact ih (relaxEdge g d i) (stateOk_relaxEdge g src d i h)

theorem stateOk_relaxAll (g : DWGraph) (src : Nat) : StateOk g src (relaxAll g src) := by
  unfold relaxAll
  generalize g.vertexCount = n
  induction n with
  | zero => exact stateOk_init g src
  | succ n ih =>
    rw [Function.iterate_succ_apply']
    exact stateOk_foldl g src _ _ ih

theorem routerBuildRoute_isWalk (g : DWGraph) (src tgt : Nat) (w : ℚ) (p : List Nat)
    (h : routerBuildRoute g src tgt = some (w, p)) : IsWalk g src tgt p := by
  unfold routerBuildRoute at h
  by_cases hst : src = tgt
  · rw [if_pos hst] at h
    simp only [Option.some.injEq, Prod.mk.injEq] at h
    obtain ⟨-, rfl⟩ := h
    exact hst ▸ IsWalk.nil src
  · rw [if_neg hst] at h
    exact stateOk_relaxAll g src tgt w p h

theorem routerBuildRoute_none_of_unreachable (g : DWGraph) (src tgt : Nat)
    (h : ¬ ∃ p, IsWalk g src tgt p) : routerBuildRoute g src tgt = none := by
  rcases hr : routerBuildRoute g src tgt with _ | wp
  · rfl
  · rcases wp with ⟨w, p⟩
    exact absurd ⟨p, routerBuildRoute_isWalk g src tgt w p hr⟩ h

theorem mem_of_getElem? {α : Type} {l : List α} {i : Nat} {a : α}
    (h : l[i]? = some a) : a ∈ l := by
  obtain ⟨hlt, he⟩ := List.getElem?_eq_some_iff.mp h
  exact he ▸ List.getElem_mem hlt

theorem waitSteps_length (cat : Catalogue) (w : ℚ) :
    (waitSteps cat w).length = cat.numStops := by
  simp [waitSteps]

theorem buildSteps_getElem_lt (cat : Catalogue) (w v : ℚ) (i : Nat)
    (h : i < cat.numStops) :
    (buildSteps cat w v)[i]? =
      some (⟨2 * i, 2 * i + 1, w⟩, RouteData.wait (cat.sortedStops.getD i "") w) := by
  unfold buildSteps
  rw [List.getElem?_append_left (by rw [waitSteps_length]; exact h)]
  unfold waitSteps
  rw [List.getElem?_map, List.getElem?_range h]
  simp [Catalogue.numStops]

theorem buildSteps_getElem_ge (cat : Catalogue) (w v : ℚ) (i : Nat)
    (h : cat.numStops ≤ i) :
    (buildSteps cat w v)[i]? =
      (cat.sortedBuses.flatMap (rideSteps cat v))[i - cat.numStops]? := by
  unfold buildSteps
  rw [List.getElem?_append_right (by rw [waitSteps_length]; exact h), waitSteps_length]

theorem builtGraph_edges_getElem (cat : Catalogue) (w v : ℚ) (i : Nat) :
    (builtGraph cat w v).edges[i]? = ((buildSteps cat w v)[i]?).map Prod.fst := by
  unfold builtGraph
  rw [List.getElem?_map]

theorem edgeInfoTable_getElem (cat : Catalogue) (w v : ℚ) (i : Nat) :
    (edgeInfoTable cat w v)[i]? = ((buildSteps cat w v)[i]?).map Prod.snd := by
  unfold edgeInfoTable
  rw [List.getElem?_map]

theorem spanPairs_mem (n p q : Nat) (h : (p, q) ∈ spanPairs n) :
    p < q ∧ q < n ∧ q - p ≤ MAX_ROUTE_SPANS := by
  unfold spanPairs at h
  rw [List.mem_flatMap] at h
  obtain ⟨a, ha, hm⟩ := h
  rw [List.mem_map] at hm
  obtain ⟨j, hj, he⟩ := hm
  obtain ⟨rfl, rfl⟩ := Prod.mk.inj he.symm
  rw [List.mem_range] at ha
  rw [List.mem_range'_1] at hj
  omega

theorem spanPairs_mem_intro (n p q : Nat) (h1 : p < q) (h2 : q < n)
    (h3 : q - p ≤ MAX_ROUTE_SPANS) : (p, q) ∈ spanPairs n := by
  unfold spanPairs
  rw [List.mem_flatMap]
  refine ⟨p, List.mem_range.mpr (Nat.lt_trans h1 h2), ?_⟩
  rw [List.mem_map]
  refine ⟨q, ?_, rfl⟩
  rw [List.mem_range'_1]
  omega

theorem rideSteps_shape (cat : Catalogue) (vel : ℚ) (b : BusR) :
    ∀ pr ∈ rideSteps cat vel b,
      ∃ p q, (p, q) ∈ spanPairs b.route.length ∧
        (pr = (⟨cat.stopArrAt (b.route.getD p "") + 1, cat.stopArrAt (b.route.getD q ""),
                 travelTime vel (cumDistF cat b.route p q)⟩,
               RouteData.bus b.name (q - p) (travelTime vel (cumDistF cat b.route p q))) ∨
         (b.isRoundtrip = false ∧
          pr = (⟨cat.stopArrAt (b.route.getD q "") + 1, cat.stopArrAt (b.route.getD p ""),
                  travelTime vel (cumDistR cat b.route p q)⟩,
                RouteData.bus b.name (q - p) (travelTime vel (cumDistR cat b.route p q))))) := by
  intro pr hpr
  unfold rideSteps at hpr
  rw [List.mem_flatMap] at hpr
  obtain ⟨ij, hij, hm⟩ := hpr
  refine ⟨ij.1, ij.2, hij, ?_⟩
  by_cases hrt : b.isRoundtrip
  · rw [if_pos hrt] at hm
    rw [List.mem_singleton] at hm
    exact Or.inl hm
  · rw [if_neg hrt] at hm
    rw [List.mem_cons, List.mem_singleton] at hm
    rcases hm with hm | hm
    · exact Or.inl hm
    · exact Or.inr ⟨Bool.eq_false_iff.mpr hrt, hm⟩

theorem rideFlat_shape (cat : Catalogue) (vel : ℚ) :
    ∀ pr ∈ cat.sortedBuses.flatMap (rideSteps cat vel),
      ∃ b, b ∈ cat.sortedBuses ∧ ∃ p q, (p, q) ∈ spanPairs b.route.length ∧
        (pr = (⟨cat.stopArrAt (b.route.getD p "") + 1, cat.stopArrAt (b.route.getD q ""),
                 travelTime vel (cumDistF cat b.route p q)⟩,
               RouteData.bus b.name (q - p) (travelTime vel (cumDistF cat b.route p q))) ∨
         (b.isRoundtrip = false ∧
          pr = (⟨cat.stopArrAt (b.route.getD q "") + 1, cat.stopArrAt (b.route.getD p ""),
                  travelTime vel (cumDistR cat b.route p q)⟩,
                RouteData.bus b.name (q - p) (travelTime vel (cumDistR cat b.route p q))))) := by
  intro pr hpr
  rw [List.mem_flatMap] at hpr
  obtain ⟨b, hb, hm⟩ := hpr
  exact ⟨b, hb, rideSteps_shape cat vel b pr hm⟩

theorem sortedStops_nodup (cat : Catalogue) : cat.sortedStops.Nodup :=
  (List.perm_insertionSort _ _).nodup_iff.mpr (List.nodup_dedup _)

theorem stopArrAt_even (cat : Catalogue) (s : String) : Even (cat.stopArrAt s) :=
  ⟨List.indexOf s cat.sortedStops, two_mul _⟩

theorem stopVertex_some (cat : Catalogue) (s : String) (u : Nat)
    (h : cat.stopVertex s = some u) :
    u = 2 * List.indexOf s cat.sortedStops ∧ s ∈ cat.sortedStops := by
  unfold Catalogue.stopVertex at h
  by_cases hm : s ∈ cat.sortedStops
  · rw [if_pos hm] at h
    exact ⟨(Option.some.inj h).symm, hm⟩
  · rw [if_neg hm] at h
    cases h

/-- The `edge_info_` entry read back for edge id `id` during
`TransportRouter::BuildRoute` (`edge_info_[edge_id]`). -/
def segOf (cat : Catalogue) (w v : ℚ) (id : Nat) : RouteData :=
  (edgeInfoTable cat w v).getD id (RouteData.wait "" 0)

theorem segOf_of_getElem (cat : Catalogue) (w v : ℚ) (i : Nat) (s : RouteData)
    (h : (edgeInfoTable cat w v)[i]? = some s) : segOf cat w v i = s := by
  unfold segOf
  rw [List.getD_eq_getElem?_getD, h]
  rfl

/-- Classification of every edge of the built graph by its id: ids below the
stop count are the wait edges (even tail, head = tail + 1, weight = the wait
time, described by a Wait segment); all later ids are ride edges (odd tail,
even head, described by a Bus segment). -/
theorem edge_classify (cat : Catalogue) (w v : ℚ) (i : Nat) (e : Edge)
    (he : (builtGraph cat w v).edges[i]? = some e) :
    (i < cat.numStops ∧ e = ⟨2 * i, 2 * i + 1, w⟩ ∧
      segOf cat w v i = RouteData.wait (cat.sortedStops.getD i "") w) ∨
    (cat.numStops ≤ i ∧ Odd e.fromV ∧ Even e.toV ∧
      ∃ nm k t, segOf cat w v i = RouteData.bus nm k t ∧ t = e.weight) := by
  rw [builtGraph_edges_getElem] at he
  by_cases hlt : i < cat.numStops
  · left
    rw [buildSteps_getElem_lt cat w v i hlt] at he
    refine ⟨hlt, (Option.some.inj he).symm, ?_⟩
    apply segOf_of_getElem
    rw [edgeInfoTable_getElem, buildSteps_getElem_lt cat w v i hlt]
    rfl
  · right
    have hge := Nat.le_of_not_lt hlt
    rw [buildSteps_getElem_ge cat w v i hge] at he
    rcases hpr : (cat.sortedBuses.flatMap (rideSteps cat v))[i - cat.numStops]? with _ | pr
    · rw [hpr] at he; cases he
    · rw [hpr] at he
      have hfst : pr.1 = e := Option.some.inj he
      have hmem := mem_of_getElem? hpr
      obtain ⟨b, -, p, q, -, hshape⟩ := rideFlat_shape cat v pr hmem
      have hinfo : segOf cat w v i = pr.2 := by
        apply segOf_of_getElem
        rw [edgeInfoTable_getElem, buildSteps_getElem_ge cat w v i hge, hpr]
        rfl
      refine ⟨hge, ?_, ?_, ?_⟩
      · rcases hshape with h1 | ⟨-, h1⟩ <;>
        · rw [← hfst, h1]
          exact (stopArrAt_even cat _).add_one
      · rcases hshape with h1 | ⟨-, h1⟩ <;>
        · rw [← hfst, h1]
          exact stopArrAt_even cat _
      · rcases hshape with h1 | ⟨-, h1⟩ <;>
        · rw [hinfo, ← hfst, h1]
          exact ⟨_, _, _, rfl, rfl⟩

/-- The strict Wait/Ride alternation of a segment list: with flag `true` the
next segment must be a Wait, with `false` a Ride. -/
def Alternating : Bool → List RouteData → Prop
  | _, [] => True
  | true, s :: rest => (∃ nm t2, s = RouteData.wait nm t2) ∧ Alternating false rest
  | false, s :: rest => (∃ nm k t2, s = RouteData.bus nm k t2) ∧ Alternating true rest

theorem walk_alternating (cat : Catalogue) (w v : ℚ) :
    ∀ {u tv : Nat} {p : List Nat}, IsWalk (builtGraph cat w v) u tv p →
      (Even u → Alternating true (p.map (segOf cat w v))) ∧
      (Odd u → Alternating false (p.map (segOf cat w v))) := by
  intro u tv p hw
  induction hw with
  | nil x => exact ⟨fun _ => trivial, fun _ => trivial⟩
  | cons a b i q e h1 h2 h3 ih =>
    constructor
    · intro heu
      rcases edge_classify cat w v i e h1 with ⟨-, he2, hinfo⟩ | ⟨-, hodd, -, -⟩
      · rw [List.map_cons]
        refine ⟨⟨_, _, hinfo⟩, ?_⟩
        apply ih.2
        rw [he2]
        exact Even.add_one ⟨i, two_mul i⟩
      · rw [h2] at hodd
        exact absurd heu (Nat.not_even_iff_odd.mpr hodd)
    · intro hou
      rcases edge_classify cat w v i e h1 with ⟨-, he2, -⟩ | ⟨-, -, heven, nm, k, t, hinfo, -⟩
      · rw [← h2] at hou
        rw [he2] at hou
        exact absurd hou (by simp [Nat.not_odd_iff_even])
      · rw [List.map_cons]
        refine ⟨⟨nm, k, t, hinfo⟩, ?_⟩
        exact ih.1 heven

theorem mem_sortedStops (cat : Catalogue) (s : String) :
    s ∈ cat.sortedStops ↔ s ∈ cat.stopNames := by
  unfold Catalogue.sortedStops
  rw [(List.perm_insertionSort _ _).mem_iff, List.mem_dedup]

theorem indexOf_getD (cat : Catalogue) (i : Nat) (h : i < cat.numStops) :
    List.indexOf (cat.sortedStops.getD i "") cat.sortedStops = i := by
  have hnd := sortedStops_nodup cat
  have hg : cat.sortedStops.getD i "" = cat.sortedStops[i] := by
    rw [List.getD_eq_getElem?_getD, List.getElem?_eq_getElem h]
    rfl
  rw [hg]
  have hm : cat.sortedStops[i] ∈ cat.sortedStops := List.getElem_mem h
  have hlt : List.indexOf cat.sortedStops[i] cat.sortedStops < cat.sortedStops.length :=
    List.indexOf_lt_length.mpr hm
  exact (List.Nodup.getElem_inj_iff hnd).mp (List.getElem_indexOf hlt)

/-- C10: `TransportCatalogue::AddRoute` silently skips unknown stop names, so
every stop stored in the new bus's route is registered, and the router's
stop-name-to-vertex lookup (`stop_ids_`) therefore succeeds on it, agreeing
with the unchecked lookup used by the graph builder. -/
theorem addRoute_skips_unregistered (cat : Catalogue) (busName : String)
    (stopnames : List String) (rt : Bool) (s : String)
    (hs : s ∈ ((cat.addRoute busName stopnames rt).buses.getD cat.buses.length
                ⟨"", [], false⟩).route) :
    s ∈ cat.stopNames ∧
    (cat.addRoute busName stopnames rt).stopVertex s =
      some ((cat.addRoute busName stopnames rt).stopArrAt s) := by
  have hbus : (cat.addRoute busName stopnames rt).buses.getD cat.buses.length
      ⟨"", [], false⟩ =
      ⟨busName, stopnames.filter (fun x => cat.stopNames.contains x), rt⟩ := by
    unfold Catalogue.addRoute
    rw [List.getD_eq_getElem?_getD, List.getElem?_append_right (Nat.le_refl _),
      Nat.sub_self]
    rfl
  rw [hbus] at hs
  rw [List.mem_filter] at hs
  have hreg : s ∈ cat.stopNames := by
    have := hs.2
    exact List.mem_of_elem_eq_true this
  refine ⟨hreg, ?_⟩
  have hstops : (cat.addRoute busName stopnames rt).stopNames = cat.stopNames := rfl
  have hmem : s ∈ (cat.addRoute busName stopnames rt).sortedStops := by
    rw [mem_sortedStops, hstops]
    exact hreg
  unfold Catalogue.stopVertex Catalogue.stopArrAt
  rw [if_pos hmem]

/-- C4: a route query with an unknown origin or destination name, or between
resolvable stops with no connecting walk in the built graph, yields `none`
(the C++ `std::nullopt`); both `FindRoute` and `BuildRoute` are plain
total functions of their inputs, so no exception is involved. -/
theorem query_unknown_or_unreachable_none (cat : Catalogue) (w v : ℚ) (f t : String) :
    ((cat.stopVertex f = none ∨ cat.stopVertex t = none) →
       buildRouteQuery cat w v f t = none) ∧
    (∀ u tv, cat.stopVertex f = some u → cat.stopVertex t = some tv →
       (¬ ∃ p, IsWalk (builtGraph cat w v) u tv p) →
       buildRouteQuery cat w v f t = none) := by
  constructor
  · intro h
    have hfr : findRoute cat w v f t = none := by
      unfold findRoute
      rcases h1 : cat.stopVertex f with _ | u
      · rfl
      · rcases h2 : cat.stopVertex t with _ | tv
        · rfl
        · rcases h with h | h
          · rw [h1] at h; cases h
          · rw [h2] at h; cases h
    unfold buildRouteQuery
    rw [hfr]
  · intro u tv h1 h2 hun
    have hfr : findRoute cat w v f t = none := by
      unfold findRoute
      rw [h1, h2]
      exact routerBuildRoute_none_of_unreachable _ u tv hun
    unfold buildRouteQuery
    rw [hfr]

/-- C7: a query from a known stop to itself resolves both names to the same
arrival vertex; the engine's source = target case yields weight 0 with no
edges, so `BuildRoute` returns a present, empty segment list of total
duration 0. -/
theorem query_self_empty (cat : Catalogue) (w v : ℚ) (s : String)
    (h : cat.stopVertex s ≠ none) :
    buildRouteQuery cat w v s s = some [] ∧
    (findRoute cat w v s s).map Prod.fst = some 0 ∧
    routeTotalTime [] = 0 := by
  rcases hv : cat.stopVertex s with _ | u
  · exact absurd hv h
  · have hfr : findRoute cat w v s s = some (0, []) := by
      unfold findRoute
      rw [hv]
      show routerBuildRoute (builtGraph cat w v) u u = some (0, [])
      unfold routerBuildRoute
      rw [if_pos rfl]
    refine ⟨?_, ?_, rfl⟩
    · unfold buildRouteQuery
      rw [hfr]
      rfl
    · rw [hfr]
      rfl

theorem countP_range_eq_one (n i : Nat) (h : i < n) (p : Nat → Bool)
    (hp : ∀ k, p k = true ↔ k = i) : (List.range n).countP p = 1 := by
  induction n with
  | zero => cases h
  | succ n ih =>
    rw [List.range_succ, List.countP_append]
    by_cases hi : i = n
    · subst hi
      have h0 : (List.range i).countP p = 0 := by
        rw [List.countP_eq_zero]
        intro k hk
        rw [hp k]
        rw [List.mem_range] at hk
        omega
      rw [h0]
      simp [List.countP_cons, (hp i).mpr rfl]
    · have hn : p n = false := by
        rcases hb : p n with _ | _
        · rfl
        · exact absurd ((hp n).mp hb).symm hi
      rw [ih (by omega)]
      simp [List.countP_cons, hn]

/-- C8: the builder allocates two contiguous vertices per stop in sorted stop
name order — the arrival vertex `2*i` (even) for the `i`-th sorted stop with
departure vertex `2*i + 1` — and adds exactly one wait edge from arrival to
departure, of weight equal to the configured wait time. -/
theorem stop_vertex_layout (cat : Catalogue) (w v : ℚ) :
    (builtGraph cat w v).vertexCount = 2 * cat.numStops ∧
    List.Sorted (fun a b => strLe a b = true) cat.sortedStops ∧
    cat.sortedStops.Nodup ∧
    ∀ i, i < cat.numStops →
      cat.stopVertex (cat.sortedStops.getD i "") = some (2 * i) ∧
      Even (2 * i) ∧
      (builtGraph cat w v).edges[i]? = some ⟨2 * i, 2 * i + 1, w⟩ ∧
      ((builtGraph cat w v).edges.countP
        (fun e => e.fromV == 2 * i && e.toV == 2 * i + 1)) = 1 := by
  refine ⟨rfl, List.sorted_insertionSort _ _, sortedStops_nodup cat, ?_⟩
  intro i hi
  have hmem : cat.sortedStops.getD i "" ∈ cat.sortedStops := by
    rw [List.getD_eq_getElem?_getD, List.getElem?_eq_getElem hi]
    exact List.getElem_mem hi
  refine ⟨?_, ⟨i, two_mul i⟩, ?_, ?_⟩
  · unfold Catalogue.stopVertex
    rw [if_pos hmem, indexOf_getD cat i hi]
  · rw [builtGraph_edges_getElem, buildSteps_getElem_lt cat w v i hi]
    rfl
  · show ((buildSteps cat w v).map Prod.fst).countP _ = 1
    rw [List.countP_map]
    unfold buildSteps
    rw [List.countP_append]
    have hwait : ((waitSteps cat w).countP
        ((fun e => e.fromV == 2 * i && e.toV == 2 * i + 1) ∘ Prod.fst)) = 1 := by
      unfold waitSteps
      rw [List.countP_map]
      apply countP_range_eq_one cat.numStops i hi
      intro k
      simp only [Function.comp_apply]
      constructor
      · intro hk
        rw [Bool.and_eq_true] at hk
        have h1 : 2 * k = 2 * i := by simpa using hk.1
        omega
      · intro hk
        subst hk
        simp
    have hride : ((cat.sortedBuses.flatMap (rideSteps cat v)).countP
        ((fun e => e.fromV == 2 * i && e.toV == 2 * i + 1) ∘ Prod.fst)) = 0 := by
      rw [List.countP_eq_zero]
      intro pr hpr
      obtain ⟨b, -, p, q, -, hshape⟩ := rideFlat_shape cat v pr hpr
      simp only [Function.comp_apply, Bool.and_eq_true]
      rintro ⟨h1, -⟩
      have h1 : pr.1.fromV = 2 * i := by simpa using h1
      rcases hshape with hs | ⟨-, hs⟩ <;>
      · rw [hs] at h1
        simp only at h1
        unfold Catalogue.stopArrAt at h1
        omega
    rw [hwait, hride]

theorem sum_map_eq_mul {α : Type} (l : List α) (f : α → Nat) (c : Nat)
    (h : ∀ x ∈ l, f x = c) : (l.map f).sum = c * l.length := by
  induction l with
  | nil => simp
  | cons x xs ih =>
    rw [List.map_cons, List.sum_cons, h x (List.mem_cons_self x xs),
      ih (fun y hy => h y (List.mem_cons_of_mem x hy)), List.length_cons]
    ring

theorem flatMap_getElem?_add {α β : Type} (l : List α) (f : α → List β) :
    ∀ (bi : Nat) (a : α), l[bi]? = some a → ∀ j, j < (f a).length →
      (l.flatMap f)[((l.take bi).map (fun x => (f x).length)).sum + j]? = (f a)[j]? := by
  induction l with
  | nil =>
    intro bi a h
    simp at h
  | cons x xs ih =>
    intro bi a h j hj
    cases bi with
    | zero =>
      rw [List.getElem?_cons_zero] at h
      obtain rfl : x = a := Option.some.inj h
      rw [List.take_zero, List.map_nil, List.sum_nil, Nat.zero_add, List.flatMap_cons,
        List.getElem?_append_left hj]
    | succ k =>
      rw [List.getElem?_cons_succ] at h
      rw [List.take_succ_cons, List.map_cons, List.sum_cons, List.flatMap_cons,
        Nat.add_assoc, List.getElem?_append_right (Nat.le_add_right _ _),
        Nat.add_sub_cancel_left]
      exact ih k a h j hj

/-- The number of ride edges pushed by the buses strictly before index `bi`
of the sorted bus iteration: the offset of bus `bi`'s block within the ride
region. -/
def busesBefore (cat : Catalogue) (v : ℚ) (bi : Nat) : Nat :=
  ((cat.sortedBuses.take bi).map (fun b => (rideSteps cat v b).length)).sum

/-- The body of the ride-edge double loop for one position pair: the forward
edge-and-description pair, followed by the reverse one when the route is not
a roundtrip (transport_router.cpp, lines 57-101; same body as inside
`rideSteps`, named so single iterations can be addressed). -/
def ridePairSteps (cat : Catalogue) (v : ℚ) (b : BusR) (ij : Nat × Nat) :
    List (Edge × RouteData) :=
  let i := ij.1
  let j := ij.2
  let tF := travelTime v (cumDistF cat b.route i j)
  let fwd : Edge × RouteData :=
    (⟨cat.stopArrAt (b.route.getD i "") + 1, cat.stopArrAt (b.route.getD j ""), tF⟩,
     RouteData.bus b.name (j - i) tF)
  if b.isRoundtrip then [fwd]
  else
    let tR := travelTime v (cumDistR cat b.route i j)
    [fwd,
     (⟨cat.stopArrAt (b.route.getD j "") + 1, cat.stopArrAt (b.route.getD i ""), tR⟩,
      RouteData.bus b.name (j - i) tR)]

theorem rideSteps_eq_flatMap (cat : Catalogue) (v : ℚ) (b : BusR) :
    rideSteps cat v b = (spanPairs b.route.length).flatMap (ridePairSteps cat v b) := rfl

theorem ridePairSteps_length (cat : Catalogue) (v : ℚ) (b : BusR) (ij : Nat × Nat) :
    (ridePairSteps cat v b ij).length = if b.isRoundtrip then 1 else 2 := by
  unfold ridePairSteps
  rcases hrt : b.isRoundtrip with _ | _
  · rfl
  · rfl

theorem rideSteps_length (cat : Catalogue) (vel : ℚ) (b : BusR) :
    (rideSteps cat vel b).length =
      (if b.isRoundtrip then 1 else 2) * (spanPairs b.route.length).length := by
  unfold rideSteps
  rw [List.length_flatMap]
  generalize spanPairs b.route.length = L
  induction L with
  | nil => simp
  | cons ij l ih =>
    rw [List.map_cons, List.sum_cons, ih]
    rcases hrt : b.isRoundtrip with _ | _
    · simp only [Function.comp_apply, hrt, Bool.false_eq_true, if_false,
        List.length_cons, List.length_singleton, List.length_nil]
      omega
    · simp only [Function.comp_apply, hrt, if_true, List.length_cons,
        List.length_singleton, List.length_nil]
      omega

/-- Within a bus's ride block, the pair at loop position `pi` puts its
forward edge at offset `(1 or 2) · pi`. -/
theorem rideSteps_fwd_at (cat : Catalogue) (v : ℚ) (b : BusR) (pi p q : Nat)
    (hpi : (spanPairs b.route.length)[pi]? = some (p, q)) :
    (rideSteps cat v b)[(if b.isRoundtrip then 1 else 2) * pi]? =
      some (⟨cat.stopArrAt (b.route.getD p "") + 1, cat.stopArrAt (b.route.getD q ""),
          travelTime v (cumDistF cat b.route p q)⟩,
        RouteData.bus b.name (q - p) (travelTime v (cumDistF cat b.route p q))) := by
  have hpilt : pi < (spanPairs b.route.length).length := (List.getElem?_eq_some_iff.mp hpi).1
  have hsum : (((spanPairs b.route.length).take pi).map
      (fun x => (ridePairSteps cat v b x).length)).sum =
      (if b.isRoundtrip then 1 else 2) * pi := by
    rw [sum_map_eq_mul _ _ (if b.isRoundtrip then 1 else 2)
        (fun x _ => ridePairSteps_length cat v b x),
      List.length_take, Nat.min_eq_left (Nat.le_of_lt hpilt)]
  have h0 : 0 < (ridePairSteps cat v b (p, q)).length := by
    rw [ridePairSteps_length]
    rcases hrt : b.isRoundtrip with _ | _ <;> simp [hrt]
  have happ := flatMap_getElem?_add (spanPairs b.route.length) (ridePairSteps cat v b)
    pi (p, q) hpi 0 h0
  rw [hsum, Nat.add_zero] at happ
  rw [rideSteps_eq_flatMap, happ]
  unfold ridePairSteps
  rcases hrt : b.isRoundtrip with _ | _
  · rfl
  · rfl

/-- Within a bus's ride block, the pair at loop position `pi` of a
non-roundtrip route puts its reverse edge at offset `2 · pi + 1`, directly
after its forward edge. -/
theorem rideSteps_rev_at (cat : Catalogue) (v : ℚ) (b : BusR) (pi p q : Nat)
    (hpi : (spanPairs b.route.length)[pi]? = some (p, q)) (hrt : b.isRoundtrip = false) :
    (rideSteps cat v b)[2 * pi + 1]? =
      some (⟨cat.stopArrAt (b.route.getD q "") + 1, cat.stopArrAt (b.route.getD p ""),
          travelTime v (cumDistR cat b.route p q)⟩,
        RouteData.bus b.name (q - p) (travelTime v (cumDistR cat b.route p q))) := by
  have hpilt : pi < (spanPairs b.route.length).length := (List.getElem?_eq_some_iff.mp hpi).1
  have hsum : (((spanPairs b.route.length).take pi).map
      (fun x => (ridePairSteps cat v b x).length)).sum = 2 * pi := by
    rw [sum_map_eq_mul _ _ 2
        (fun x _ => by rw [ridePairSteps_length cat v b x, hrt]; rfl),
      List.length_take, Nat.min_eq_left (Nat.le_of_lt hpilt)]
  have h1 : 1 < (ridePairSteps cat v b (p, q)).length := by
    rw [ridePairSteps_length, hrt]
    decide
  have happ := flatMap_getElem?_add (spanPairs b.route.length) (ridePairSteps cat v b)
    pi (p, q) hpi 1 h1
  rw [hsum] at happ
  rw [rideSteps_eq_flatMap, happ]
  unfold ridePairSteps
  rw [hrt]
  rfl

/-- C5: edge ids are positions in push order, and the `edge_info_` table
stays in lockstep.  Conjuncts: the graph and the table have equal length;
the ids below the stop count are exactly the wait edges in sorted stop
order, each described by the Wait entry of its stop; every later id is a
ride edge of some sorted bus and its table entry is the full description of
that very edge (same bus name, span count `q − p` of its generating pair,
and duration equal to the edge weight, forward or reverse matching the
edge's endpoints); and every ride edge's id is exactly the wait-edge count,
plus the blocks of all earlier buses in sorted (route) order, plus
`(1 or 2) ·` its pair's loop position, with the reverse edge — when the
route is not a roundtrip — immediately after its forward edge. -/
theorem edge_ids_lockstep (cat : Catalogue) (w v : ℚ) :
    (builtGraph cat w v).edges.length = (edgeInfoTable cat w v).length ∧
    (∀ i, i < cat.numStops →
      (builtGraph cat w v).edges[i]? = some ⟨2 * i, 2 * i + 1, w⟩ ∧
      (edgeInfoTable cat w v)[i]? = some (RouteData.wait (cat.sortedStops.getD i "") w)) ∧
    (∀ i e, cat.numStops ≤ i → (builtGraph cat w v).edges[i]? = some e →
      ∃ b, b ∈ cat.sortedBuses ∧ ∃ p q, (p, q) ∈ spanPairs b.route.length ∧
        ((e = ⟨cat.stopArrAt (b.route.getD p "") + 1, cat.stopArrAt (b.route.getD q ""),
            travelTime v (cumDistF cat b.route p q)⟩ ∧
          (edgeInfoTable cat w v)[i]? =
            some (RouteData.bus b.name (q - p) (travelTime v (cumDistF cat b.route p q)))) ∨
         (b.isRoundtrip = false ∧
          e = ⟨cat.stopArrAt (b.route.getD q "") + 1, cat.stopArrAt (b.route.getD p ""),
            travelTime v (cumDistR cat b.route p q)⟩ ∧
          (edgeInfoTable cat w v)[i]? =
            some (RouteData.bus b.name (q - p) (travelTime v (cumDistR cat b.route p q)))))) ∧
    (∀ bi b, cat.sortedBuses[bi]? = some b →
      ∀ pi p q, (spanPairs b.route.length)[pi]? = some (p, q) →
        ((builtGraph cat w v).edges[cat.numStops + busesBefore cat v bi +
            (if b.isRoundtrip then 1 else 2) * pi]? =
          some ⟨cat.stopArrAt (b.route.getD p "") + 1, cat.stopArrAt (b.route.getD q ""),
            travelTime v (cumDistF cat b.route p q)⟩ ∧
         (edgeInfoTable cat w v)[cat.numStops + busesBefore cat v bi +
            (if b.isRoundtrip then 1 else 2) * pi]? =
          some (RouteData.bus b.name (q - p) (travelTime v (cumDistF cat b.route p q)))) ∧
        (b.isRoundtrip = false →
          (builtGraph cat w v).edges[cat.numStops + busesBefore cat v bi + 2 * pi + 1]? =
            some ⟨cat.stopArrAt (b.route.getD q "") + 1, cat.stopArrAt (b.route.getD p ""),
              travelTime v (cumDistR cat b.route p q)⟩ ∧
          (edgeInfoTable cat w v)[cat.numStops + busesBefore cat v bi + 2 * pi + 1]? =
            some (RouteData.bus b.name (q - p) (travelTime v (cumDistR cat b.route p q))))) := by
  refine ⟨by simp [builtGraph, edgeInfoTable], ?_, ?_, ?_⟩
  · intro i hi
    constructor
    · rw [builtGraph_edges_getElem, buildSteps_getElem_lt cat w v i hi]
      rfl
    · rw [edgeInfoTable_getElem, buildSteps_getElem_lt cat w v i hi]
      rfl
  · intro i e hge he
    rw [builtGraph_edges_getElem, buildSteps_getElem_ge cat w v i hge] at he
    rcases hpr : (cat.sortedBuses.flatMap (rideSteps cat v))[i - cat.numStops]? with _ | pr
    · rw [hpr] at he; cases he
    · rw [hpr] at he
      have hfst : pr.1 = e := Option.some.inj he
      obtain ⟨b, hb, p, q, hpq, hshape⟩ := rideFlat_shape cat v pr (mem_of_getElem? hpr)
      have hinfo : (edgeInfoTable cat w v)[i]? = some pr.2 := by
        rw [edgeInfoTable_getElem, buildSteps_getElem_ge cat w v i hge, hpr]
        rfl
      refine ⟨b, hb, p, q, hpq, ?_⟩
      rcases hshape with hs | ⟨hrt, hs⟩
      · refine Or.inl ⟨?_, ?_⟩
        · rw [← hfst, hs]
        · rw [hinfo, hs]
      · refine Or.inr ⟨hrt, ?_, ?_⟩
        · rw [← hfst, hs]
        · rw [hinfo, hs]
  · intro bi b hbi pi p q hpi
    have hpilt : pi < (spanPairs b.route.length).length := (List.getElem?_eq_some_iff.mp hpi).1
    have hfwd := rideSteps_fwd_at cat v b pi p q hpi
    have hflen : (if b.isRoundtrip then 1 else 2) * pi < (rideSteps cat v b).length := by
      rw [rideSteps_length]
      rcases hrt : b.isRoundtrip with _ | _
      · simp only [hrt, Bool.false_eq_true, if_false]
        omega
      · simp only [hrt, if_true]
        omega
    have houter := flatMap_getElem?_add cat.sortedBuses (rideSteps cat v) bi b hbi _ hflen
    constructor
    · constructor
      · rw [builtGraph_edges_getElem, buildSteps_getElem_ge cat w v _ (by omega),
          show cat.numStops + busesBefore cat v bi + (if b.isRoundtrip then 1 else 2) * pi
            - cat.numStops
            = busesBefore cat v bi + (if b.isRoundtrip then 1 else 2) * pi by omega]
        unfold busesBefore
        rw [houter, hfwd]
        rfl
      · rw [edgeInfoTable_getElem, buildSteps_getElem_ge cat w v _ (by omega),
          show cat.numStops + busesBefore cat v bi + (if b.isRoundtrip then 1 else 2) * pi
            - cat.numStops
            = busesBefore cat v bi + (if b.isRoundtrip then 1 else 2) * pi by omega]
        unfold busesBefore
        rw [houter, hfwd]
        rfl
    · intro hrt
      have hrev := rideSteps_rev_at cat v b pi p q hpi hrt
      have hrlen : 2 * pi + 1 < (rideSteps cat v b).length := by
        rw [rideSteps_length]
        simp only [hrt, Bool.false_eq_true, if_false]
        omega
      have houter2 := flatMap_getElem?_add cat.sortedBuses (rideSteps cat v) bi b hbi _ hrlen
      constructor
      · rw [builtGraph_edges_getElem, buildSteps_getElem_ge cat w v _ (by omega),
          show cat.numStops + busesBefore cat v bi + 2 * pi + 1 - cat.numStops
            = busesBefore cat v bi + (2 * pi + 1) by omega]
        unfold busesBefore
        rw [houter2, hrev]
        rfl
      · rw [edgeInfoTable_getElem, buildSteps_getElem_ge cat w v _ (by omega),
          show cat.numStops + busesBefore cat v bi + 2 * pi + 1 - cat.numStops
            = busesBefore cat v bi + (2 * pi + 1) by omega]
        unfold busesBefore
        rw [houter2, hrev]
        rfl

/-- C1: `GetDistance` substitutes the reverse direction whenever the directed
entry is absent, and every ride edge runs from the departure vertex of its
span's first stop to the arrival vertex of its last stop with weight equal
to the cumulative hop-by-hop `GetDistance` sum over that very span, in the
edge's own direction, divided by the speed converted to metres per minute
(`bus_velocity * 1000 / 60`): forward edges use the forward hop sums, and
reverse edges (non-roundtrip routes only) independently sum the
reverse-direction hops. -/
theorem ride_edge_weight_formula (cat : Catalogue) (w v : ℚ) :
    (∀ a b d, List.lookup (a, b) cat.distances = none →
       List.lookup (b, a) cat.distances = some d → cat.getDistance a b = d) ∧
    (∀ i e, cat.numStops ≤ i → (builtGraph cat w v).edges[i]? = some e →
       ∃ b, b ∈ cat.sortedBuses ∧ ∃ p q, p < q ∧ q < b.route.length ∧
         q - p ≤ MAX_ROUTE_SPANS ∧
         (e = ⟨cat.stopArrAt (b.route.getD p "") + 1, cat.stopArrAt (b.route.getD q ""),
            ((((List.range' (p + 1) (q - p)).map (fun k =>
                cat.getDistance (b.route.getD (k - 1) "") (b.route.getD k ""))).sum : Nat) : ℚ) /
              (v * (1000 / 60))⟩ ∨
          (b.isRoundtrip = false ∧
           e = ⟨cat.stopArrAt (b.route.getD q "") + 1, cat.stopArrAt (b.route.getD p ""),
             (((((List.range' (p + 1) (q - p)).reverse).map (fun k =>
                 cat.getDistance (b.route.getD k "") (b.route.getD (k - 1) ""))).sum : Nat) : ℚ) /
               (v * (1000 / 60))⟩))) := by
  constructor
  · intro a b d h1 h2
    unfold Catalogue.getDistance
    rw [h1, h2]
  · intro i e hge he
    rw [builtGraph_edges_getElem, buildSteps_getElem_ge cat w v i hge] at he
    rcases hpr : (cat.sortedBuses.flatMap (rideSteps cat v))[i - cat.numStops]? with _ | pr
    · rw [hpr] at he; cases he
    · rw [hpr] at he
      have hfst : pr.1 = e := Option.some.inj he
      obtain ⟨b, hb, p, q, hpq, hshape⟩ := rideFlat_shape cat v pr (mem_of_getElem? hpr)
      obtain ⟨hlt, hql, hspan⟩ := spanPairs_mem _ p q hpq
      refine ⟨b, hb, p, q, hlt, hql, hspan, ?_⟩
      rcases hshape with hs | ⟨hrt, hs⟩
      · left
        rw [← hfst, hs]
        rfl
      · right
        refine ⟨hrt, ?_⟩
        rw [← hfst, hs]
        rfl

/-- C6: for every non-roundtrip bus and every loop pair `(p, q)`, the builder
adds both the forward ride edge and a reverse ride edge from stop `q` back
to stop `p`, with the same span count `q - p`, whose weight is computed from
the independently summed reverse-direction cumulative distance. -/
theorem reverse_ride_edge_exists (cat : Catalogue) (w v : ℚ) (b : BusR)
    (hb : b ∈ cat.sortedBuses) (hrt : b.isRoundtrip = false) (p q : Nat)
    (hpq : (p, q) ∈ spanPairs b.route.length) :
    (⟨cat.stopArrAt (b.route.getD p "") + 1, cat.stopArrAt (b.route.getD q ""),
       travelTime v (cumDistF cat b.route p q)⟩ : Edge) ∈ (builtGraph cat w v).edges ∧
    (⟨cat.stopArrAt (b.route.getD q "") + 1, cat.stopArrAt (b.route.getD p ""),
       travelTime v (cumDistR cat b.route p q)⟩ : Edge) ∈ (builtGraph cat w v).edges ∧
    RouteData.bus b.name (q - p) (travelTime v (cumDistR cat b.route p q))
      ∈ edgeInfoTable cat w v ∧
    cumDistR cat b.route p q =
      (((List.range' (p + 1) (q - p)).reverse).map (fun k =>
         cat.getDistance (b.route.getD k "") (b.route.getD (k - 1) ""))).sum := by
  have hfwd : ((⟨cat.stopArrAt (b.route.getD p "") + 1, cat.stopArrAt (b.route.getD q ""),
      travelTime v (cumDistF cat b.route p q)⟩ : Edge),
      RouteData.bus b.name (q - p) (travelTime v (cumDistF cat b.route p q)))
      ∈ buildSteps cat w v := by
    unfold buildSteps
    rw [List.mem_append]
    right
    rw [List.mem_flatMap]
    refine ⟨b, hb, ?_⟩
    unfold rideSteps
    rw [List.mem_flatMap]
    refine ⟨(p, q), hpq, ?_⟩
    rw [if_neg (by rw [hrt]; exact Bool.false_ne_true)]
    exact List.mem_cons_self _ _
  have hrev : ((⟨cat.stopArrAt (b.route.getD q "") + 1, cat.stopArrAt (b.route.getD p ""),
      travelTime v (cumDistR cat b.route p q)⟩ : Edge),
      RouteData.bus b.name (q - p) (travelTime v (cumDistR cat b.route p q)))
      ∈ buildSteps cat w v := by
    unfold buildSteps
    rw [List.mem_append]
    right
    rw [List.mem_flatMap]
    refine ⟨b, hb, ?_⟩
    unfold rideSteps
    rw [List.mem_flatMap]
    refine ⟨(p, q), hpq, ?_⟩
    rw [if_neg (by rw [hrt]; exact Bool.false_ne_true)]
    exact List.mem_cons_of_mem _ (List.mem_singleton.mpr rfl)
  refine ⟨?_, ?_, ?_, rfl⟩
  · exact List.mem_map_of_mem Prod.fst hfwd
  · exact List.mem_map_of_mem Prod.fst hrev
  · exact List.mem_map_of_mem Prod.snd hrev

/-- C9: any non-empty query result starts with a Wait segment at the origin
stop of duration equal to the configured wait time, and Wait and Ride
segments strictly alternate thereafter: queries enter the graph at an
arrival vertex, the only edges leaving arrival vertices are wait edges, and
ride edges lead from departure vertices back to arrival vertices. -/
theorem result_segments_alternate (cat : Catalogue) (w v : ℚ) (f t : String)
    (segs : List RouteData) (h : buildRouteQuery cat w v f t = some segs)
    (hne : segs ≠ []) :
    segs.head? = some (RouteData.wait f w) ∧ Alternating true segs := by
  unfold buildRouteQuery at h
  rcases hfr : findRoute cat w v f t with _ | wi
  · rw [hfr] at h; cases h
  · rw [hfr] at h
    rcases wi with ⟨wt, ids⟩
    have hsegs : segs = ids.map (segOf cat w v) := (Option.some.inj h).symm
    unfold findRoute at hfr
    rcases h1 : cat.stopVertex f with _ | u
    · rw [h1] at hfr; cases hfr
    · rcases h2 : cat.stopVertex t with _ | tv
      · rw [h1, h2] at hfr; cases hfr
      · rw [h1, h2] at hfr
        have hwalk := routerBuildRoute_isWalk _ u tv wt ids hfr
        obtain ⟨hu, hmem⟩ := stopVertex_some cat f u h1
        have heu : Even u := hu ▸ ⟨_, two_mul _⟩
        have halt := (walk_alternating cat w v hwalk).1 heu
        refine ⟨?_, hsegs ▸ halt⟩
        cases ids with
        | nil =>
          rw [hsegs] at hne
          exact absurd rfl hne
        | cons i0 rest =>
          cases hwalk with
          | cons _ _ _ _ e he hf2 hsub =>
            rcases edge_classify cat w v i0 e he with ⟨hi0, he2, hinfo⟩ | ⟨-, hodd, -, -⟩
            · have h2i : 2 * i0 = u := by rw [he2] at hf2; exact hf2
              have hidx : i0 = List.indexOf f cat.sortedStops := by omega
              have hlt2 : List.indexOf f cat.sortedStops < cat.sortedStops.length :=
                List.indexOf_lt_length.mpr hmem
              have hname : cat.sortedStops.getD i0 "" = f := by
                rw [hidx, List.getD_eq_getElem?_getD, List.getElem?_eq_getElem hlt2]
                exact List.getElem_indexOf hlt2
              rw [hsegs, List.map_cons]
              show some (segOf cat w v i0) = some (RouteData.wait f w)
              rw [hinfo, hname]
            · rw [hf2] at hodd
              exact absurd heu (Nat.not_even_iff_odd.mpr hodd)

theorem spanPairs_length_le (n : Nat) :
    (spanPairs n).length ≤ n * MAX_ROUTE_SPANS := by
  unfold spanPairs
  rw [List.length_flatMap]
  have hb : ∀ x ∈ List.map
      (List.length ∘ fun i =>
        (List.range' (i + 1) (min (i + MAX_ROUTE_SPANS) (n - 1) - i)).map (fun j => (i, j)))
      (List.range n), x ≤ MAX_ROUTE_SPANS := by
    intro x hx
    rw [List.mem_map] at hx
    obtain ⟨i, -, rfl⟩ := hx
    simp only [Function.comp_apply, List.length_map, List.length_range']
    omega
  have h := List.sum_le_card_nsmul _ MAX_ROUTE_SPANS hb
  rw [List.length_map, List.length_range, smul_eq_mul] at h
  exact h

/-- The synthetic long route of the bounded-fanout scenario: 92 registered
stops and one non-roundtrip bus passing through all of them. -/
def namesN (n : Nat) : List String :=
  (List.range n).map (fun i => "s" ++ toString i)

def bus92 : BusR := ⟨"long", namesN 92, false⟩

def cat92 : Catalogue := ⟨namesN 92, [], [bus92]⟩

/-- C3 counterexample: the 92-stop non-roundtrip route contributes
2 · 4185 = 8370 ride edges (forward and reverse per loop pair), which
exceeds N · M = 92 · 90 = 8280. -/
theorem long_route_edge_count_exceeds :
    ¬ ((rideSteps cat92 30 bus92).length ≤ bus92.route.length * MAX_ROUTE_SPANS) := by
  have hlen : bus92.route.length = 92 := by
    show (namesN 92).length = 92
    unfold namesN
    rw [List.length_map, List.length_range]
  have hsp : (spanPairs 92).length = 4185 := by
    unfold spanPairs MAX_ROUTE_SPANS
    rw [List.length_flatMap]
    decide
  rw [rideSteps_length, hlen, hsp]
  decide

/-- C3 amended: a route of `N` stops contributes at most `2 · N · M` ride
edges in general (forward plus reverse per loop pair), and at most `N · M`
when it is a roundtrip (forward only). -/
theorem ride_edge_count_bound (cat : Catalogue) (vel : ℚ) (b : BusR) :
    (rideSteps cat vel b).length ≤ 2 * (b.route.length * MAX_ROUTE_SPANS) ∧
    (b.isRoundtrip = true →
      (rideSteps cat vel b).length ≤ b.route.length * MAX_ROUTE_SPANS) := by
  have hb := spanPairs_length_le b.route.length
  rw [rideSteps_length]
  constructor
  · by_cases hrt : b.isRoundtrip
    · rw [if_pos hrt]; omega
    · rw [if_neg hrt]; omega
  · intro hrt
    rw [if_pos hrt]; omega

/-- A catalogue whose only route needs the distance A→B, supplied in neither
direction. -/
def catMissing : Catalogue := ⟨["A", "B"], [], [⟨"X", ["A", "B"], true⟩]⟩

theorem travelTime_zero (v : ℚ) : travelTime v 0 = 0 := by
  unfold travelTime
  norm_num

/-- C2 counterexample: with the hop distance absent in both directions (and
no other validation failing), construction still completes — the router's
graph is fully built, containing both wait edges and the ride edge, whose
weight is simply 0 — instead of aborting. -/
theorem build_missing_distance_not_fatal :
    List.lookup ("A", "B") catMissing.distances = none ∧
    List.lookup ("B", "A") catMissing.distances = none ∧
    (builtGraph catMissing 6 30).edges.length = 3 ∧
    (builtGraph catMissing 6 30).edges[2]? = some ⟨1, 2, 0⟩ ∧
    edgeInfoTable catMissing 6 30 =
      [RouteData.wait "A" 6, RouteData.wait "B" 6, RouteData.bus "X" 1 0] := by
  refine ⟨rfl, rfl, rfl, ?_, ?_⟩
  · show some (⟨1, 2, travelTime 30 0⟩ : Edge) = some ⟨1, 2, 0⟩
    rw [travelTime_zero]
  · show [RouteData.wait "A" 6, RouteData.wait "B" 6,
      RouteData.bus "X" 1 (travelTime 30 0)] = _
    rw [travelTime_zero]

/-- C2 amended: the builder performs no validation at all — `GetDistance`
returns 0 for a hop missing in both directions, and for every settings pair
(including non-positive wait times or speeds) construction completes with
the full edge set (all wait edges plus every route's ride edges); no
abort path exists. -/
theorem build_accepts_missing_distance (cat : Catalogue) (w v : ℚ) (a b : String)
    (h1 : List.lookup (a, b) cat.distances = none)
    (h2 : List.lookup (b, a) cat.distances = none) :
    cat.getDistance a b = 0 ∧
    (builtGraph cat w v).edges.length =
      cat.numStops + (cat.sortedBuses.map (fun bus => (rideSteps cat v bus).length)).sum := by
  constructor
  · unfold Catalogue.getDistance
    rw [h1, h2]
  · show ((buildSteps cat w v).map Prod.fst).length = _
    rw [List.length_map]
    unfold buildSteps
    rw [List.length_append, waitSteps_length, List.length_flatMap]
    rfl

/-- The spec scenario catalogue: non-roundtrip route A-B-C with distances
supplied only as A→B = 100 and B→C = 100. -/
def catABC : Catalogue :=
  ⟨["A", "B", "C"], [(("A", "B"), 100), (("B", "C"), 100)],
   [⟨"R", ["A", "B", "C"], false⟩]⟩

/-- Two registered stops with no bus at all: every stop pair is unreachable. -/
def catNoBus : Catalogue := ⟨["A", "B"], [], []⟩

/-- A minimal serviced catalogue: one roundtrip bus from A to B at distance
1000 m; at 60 km/h the ride takes exactly one minute. -/
def catWit : Catalogue := ⟨["A", "B"], [(("A", "B"), 1000)], [⟨"X", ["A", "B"], true⟩]⟩

theorem catNoBus_edges (i : Nat) (e : Edge)
    (h : (builtGraph catNoBus 6 30).edges[i]? = some e) :
    (i = 0 ∧ e = ⟨0, 1, 6⟩) ∨ (i = 1 ∧ e = ⟨2, 3, 6⟩) := by
  match i with
  | 0 =>
    left
    refine ⟨rfl, ?_⟩
    have h0 : (builtGraph catNoBus 6 30).edges[0]? = some ⟨0, 1, 6⟩ := rfl
    rw [h0] at h
    exact (Option.some.inj h).symm
  | 1 =>
    right
    refine ⟨rfl, ?_⟩
    have h1 : (builtGraph catNoBus 6 30).edges[1]? = some ⟨2, 3, 6⟩ := rfl
    rw [h1] at h
    exact (Option.some.inj h).symm
  | (n + 2) =>
    exfalso
    have hn : (builtGraph catNoBus 6 30).edges[n + 2]? = none := by
      apply List.getElem?_eq_none
      show (builtGraph catNoBus 6 30).edges.length ≤ n + 2
      have : (builtGraph catNoBus 6 30).edges.length = 2 := rfl
      omega
    rw [hn] at h
    cases h

theorem no_walk_from_departure_catNoBus :
    ∀ p, ¬ IsWalk (builtGraph catNoBus 6 30) 1 2 p := by
  intro p hw
  cases hw with
  | cons _ _ i q e he hf hsub =>
    rcases catNoBus_edges i e he with ⟨-, rfl⟩ | ⟨-, rfl⟩
    · exact absurd hf (by decide)
    · exact absurd hf (by decide)

theorem no_walk_catNoBus :
    ∀ p, ¬ IsWalk (builtGraph catNoBus 6 30) 0 2 p := by
  intro p hw
  cases hw with
  | cons _ _ i q e he hf hsub =>
    rcases catNoBus_edges i e he with ⟨-, rfl⟩ | ⟨-, rfl⟩
    · exact no_walk_from_departure_catNoBus q hsub
    · exact absurd hf (by decide)

/-- C4 witness: querying the unknown stop Z yields `none`, and querying the
two registered but unconnected stops A and B yields `none`. -/
theorem query_unknown_or_unreachable_none_witness :
    buildRouteQuery catNoBus 6 30 "A" "Z" = none ∧
    buildRouteQuery catNoBus 6 30 "A" "B" = none :=
  ⟨(query_unknown_or_unreachable_none catNoBus 6 30 "A" "Z").1 (Or.inr (by decide)),
   (query_unknown_or_unreachable_none catNoBus 6 30 "A" "B").2 0 2 (by decide) (by decide)
     (fun hex => match hex with | ⟨p, hw⟩ => no_walk_catNoBus p hw)⟩

/-- C7 witness: querying A→A on a concrete catalogue returns the present
empty itinerary of total duration 0. -/
theorem query_self_empty_witness :
    buildRouteQuery catNoBus 6 30 "A" "A" = some [] ∧
    (findRoute catNoBus 6 30 "A" "A").map Prod.fst = some 0 ∧
    routeTotalTime [] = 0 :=
  query_self_empty catNoBus 6 30 "A" (by decide)

/-- C10 witness: adding a route through the unknown stop Q keeps only A and
B; the stored stop A is registered and its vertex lookup succeeds. -/
theorem addRoute_skips_unregistered_witness :
    "A" ∈ catNoBus.stopNames ∧
    (catNoBus.addRoute "X" ["A", "Q", "B"] false).stopVertex "A" =
      some ((catNoBus.addRoute "X" ["A", "Q", "B"] false).stopArrAt "A") :=
  addRoute_skips_unregistered catNoBus "X" ["A", "Q", "B"] false "A" (by decide)

/-- C8 witness: in the scenario catalogue the first sorted stop gets arrival
vertex 0 and departure vertex 1, with exactly one wait edge of weight 6. -/
theorem stop_vertex_layout_witness :
    catABC.stopVertex (catABC.sortedStops.getD 0 "") = some (2 * 0) ∧
    Even (2 * 0) ∧
    (builtGraph catABC 6 30).edges[0]? = some ⟨2 * 0, 2 * 0 + 1, 6⟩ ∧
    ((builtGraph catABC 6 30).edges.countP
      (fun e => e.fromV == 2 * 0 && e.toV == 2 * 0 + 1)) = 1 :=
  (stop_vertex_layout catABC 6 30).2.2.2 0 (by decide)

/-- C5 witness: edge id 3 — the first ride edge after the three wait edges —
is fully described by its table entry (bus R, span 1, its own weight), and
for the pair (0, 2) of bus R the forward edge sits at id 5 and its reverse
immediately after at id 6. -/
theorem edge_ids_lockstep_witness :
    (∃ b, b ∈ catABC.sortedBuses ∧ ∃ p q, (p, q) ∈ spanPairs b.route.length ∧
      (((⟨1, 2, travelTime 30 100⟩ : Edge) =
          ⟨catABC.stopArrAt (b.route.getD p "") + 1, catABC.stopArrAt (b.route.getD q ""),
            travelTime 30 (cumDistF catABC b.route p q)⟩ ∧
        (edgeInfoTable catABC 6 30)[3]? =
          some (RouteData.bus b.name (q - p) (travelTime 30 (cumDistF catABC b.route p q)))) ∨
       (b.isRoundtrip = false ∧
        (⟨1, 2, travelTime 30 100⟩ : Edge) =
          ⟨catABC.stopArrAt (b.route.getD q "") + 1, catABC.stopArrAt (b.route.getD p ""),
            travelTime 30 (cumDistR catABC b.route p q)⟩ ∧
        (edgeInfoTable catABC 6 30)[3]? =
          some (RouteData.bus b.name (q - p) (travelTime 30 (cumDistR catABC b.route p q)))))) ∧
    ((builtGraph catABC 6 30).edges[5]? = some ⟨1, 4, travelTime 30 200⟩ ∧
     (edgeInfoTable catABC 6 30)[5]? = some (RouteData.bus "R" 2 (travelTime 30 200))) ∧
    ((builtGraph catABC 6 30).edges[6]? = some ⟨5, 0, travelTime 30 200⟩ ∧
     (edgeInfoTable catABC 6 30)[6]? = some (RouteData.bus "R" 2 (travelTime 30 200))) :=
  ⟨(edge_ids_lockstep catABC 6 30).2.2.1 3 ⟨1, 2, travelTime 30 100⟩ (by decide) rfl,
   ((edge_ids_lockstep catABC 6 30).2.2.2 0 ⟨"R", ["A", "B", "C"], false⟩ rfl
      1 0 2 (by decide)).1,
   ((edge_ids_lockstep catABC 6 30).2.2.2 0 ⟨"R", ["A", "B", "C"], false⟩ rfl
      1 0 2 (by decide)).2 rfl⟩

/-- C1 witness: `GetDistance` falls back to the reverse entry (C→B uses
B→C = 100), and the reverse ride edge over the full A-B-C span (edge id 6,
from C's departure vertex 5 to A's arrival vertex 0, weight 200 m at
30 km/h) satisfies the endpoint-and-span-tied cumulative-distance formula. -/
theorem ride_edge_weight_formula_witness :
    catABC.getDistance "C" "B" = 100 ∧
    (∃ b, b ∈ catABC.sortedBuses ∧ ∃ p q, p < q ∧ q < b.route.length ∧
      q - p ≤ MAX_ROUTE_SPANS ∧
      ((⟨5, 0, travelTime 30 200⟩ : Edge) =
         ⟨catABC.stopArrAt (b.route.getD p "") + 1, catABC.stopArrAt (b.route.getD q ""),
           ((((List.range' (p + 1) (q - p)).map (fun k =>
               catABC.getDistance (b.route.getD (k - 1) "") (b.route.getD k ""))).sum : Nat) : ℚ) /
             (30 * (1000 / 60))⟩ ∨
       (b.isRoundtrip = false ∧
        (⟨5, 0, travelTime 30 200⟩ : Edge) =
          ⟨catABC.stopArrAt (b.route.getD q "") + 1, catABC.stopArrAt (b.route.getD p ""),
            (((((List.range' (p + 1) (q - p)).reverse).map (fun k =>
                catABC.getDistance (b.route.getD k "") (b.route.getD (k - 1) ""))).sum : Nat) : ℚ) /
              (30 * (1000 / 60))⟩))) :=
  ⟨(ride_edge_weight_formula catABC 6 30).1 "C" "B" 100 (by decide) (by decide),
   (ride_edge_weight_formula catABC 6 30).2 6 ⟨5, 0, travelTime 30 200⟩ (by decide) rfl⟩

/-- C6 witness: the spec scenario — for the pair (0, 2) of the non-roundtrip
route A-B-C, both the forward edge and the reverse edge C→A exist, the
reverse weight summing the fallback distances 100 + 100 = 200. -/
theorem reverse_ride_edge_exists_witness :
    (⟨catABC.stopArrAt ((⟨"R", ["A", "B", "C"], false⟩ : BusR).route.getD 0 "") + 1,
       catABC.stopArrAt ((⟨"R", ["A", "B", "C"], false⟩ : BusR).route.getD 2 ""),
       travelTime 30 (cumDistF catABC (⟨"R", ["A", "B", "C"], false⟩ : BusR).route 0 2)⟩ : Edge)
      ∈ (builtGraph catABC 6 30).edges ∧
    (⟨catABC.stopArrAt ((⟨"R", ["A", "B", "C"], false⟩ : BusR).route.getD 2 "") + 1,
       catABC.stopArrAt ((⟨"R", ["A", "B", "C"], false⟩ : BusR).route.getD 0 ""),
       travelTime 30 (cumDistR catABC (⟨"R", ["A", "B", "C"], false⟩ : BusR).route 0 2)⟩ : Edge)
      ∈ (builtGraph catABC 6 30).edges ∧
    RouteData.bus "R" (2 - 0)
      (travelTime 30 (cumDistR catABC (⟨"R", ["A", "B", "C"], false⟩ : BusR).route 0 2))
      ∈ edgeInfoTable catABC 6 30 ∧
    cumDistR catABC (⟨"R", ["A", "B", "C"], false⟩ : BusR).route 0 2 =
      (((List.range' (0 + 1) (2 - 0)).reverse).map (fun k =>
         catABC.getDistance ((⟨"R", ["A", "B", "C"], false⟩ : BusR).route.getD k "")
           ((⟨"R", ["A", "B", "C"], false⟩ : BusR).route.getD (k - 1) ""))).sum :=
  reverse_ride_edge_exists catABC 6 30 ⟨"R", ["A", "B", "C"], false⟩ (by decide) rfl 0 2
    (by decide)

/-- C2 amended witness: the A→B hop of `catMissing` is absent in both
directions, yet `GetDistance` yields 0 and the full edge count identity
holds. -/
theorem build_accepts_missing_distance_witness :
    catMissing.getDistance "A" "B" = 0 ∧
    (builtGraph catMissing 6 30).edges.length =
      catMissing.numStops +
        (catMissing.sortedBuses.map (fun bus => (rideSteps catMissing 30 bus).length)).sum :=
  build_accepts_missing_distance catMissing 6 30 "A" "B" rfl rfl

/-- C3 amended witness: the roundtrip two-stop bus of `catMissing` respects
both the general 2·N·M bound and the roundtrip N·M bound. -/
theorem ride_edge_count_bound_witness :
    (rideSteps catMissing 30 ⟨"X", ["A", "B"], true⟩).length ≤
      2 * ((⟨"X", ["A", "B"], true⟩ : BusR).route.length * MAX_ROUTE_SPANS) ∧
    (rideSteps catMissing 30 ⟨"X", ["A", "B"], true⟩).length ≤
      (⟨"X", ["A", "B"], true⟩ : BusR).route.length * MAX_ROUTE_SPANS :=
  ⟨(ride_edge_count_bound catMissing 30 ⟨"X", ["A", "B"], true⟩).1,
   (ride_edge_count_bound catMissing 30 ⟨"X", ["A", "B"], true⟩).2 rfl⟩

/-- C9 witness: the concrete query A→B on `catWit` returns the two-segment
itinerary Wait(A, 6) then Ride(X, 1 span, 1 minute), which starts with the
origin's wait segment and alternates. -/
theorem result_segments_alternate_witness :
    ([RouteData.wait "A" 6, RouteData.bus "X" 1 1] : List RouteData).head? =
      some (RouteData.wait "A" 6) ∧
    Alternating true [RouteData.wait "A" 6, RouteData.bus "X" 1 1] :=
  result_segments_alternate catWit 6 60 "A" "B"
    [RouteData.wait "A" 6, RouteData.bus "X" 1 1]
    (by with_unfolding_all decide) (by decide)
